import Mathlib

/-!
Verification of the chess backend (`src/chess_backend/src/api/`).

The repository's rules engine is the external `python-chess` library, which is
not part of the repository's files; following the specification, the engine
(board representation, move generation, move application, status predicates,
move-text parsing) is modelled here from the spec's words (each such
definition's doc comment starts with `Modelled from the spec:`).  The game
store and status/endpoint logic (`chess_engine.py`, `main.py`) are embedded
directly from the source.
-/

namespace ChessSpec

/-- Modelled from the spec: piece color (white/black). -/
inductive Color
  | white
  | black
deriving DecidableEq

/-- Modelled from the spec: the side opposite a given side. -/
def Color.other : Color → Color
  | .white => .black
  | .black => .white

/-- Modelled from the spec: the six piece kinds. -/
inductive PieceKind
  | pawn
  | knight
  | bishop
  | rook
  | queen
  | king
deriving DecidableEq

/-- Modelled from the spec: a piece is a color plus a kind. -/
structure Piece where
  color : Color
  kind : PieceKind
deriving DecidableEq

/-- Modelled from the spec: 8×8 grid of square contents, a list of 64
entries indexed by `rank * 8 + file` (a1 = 0, h1 = 7, a8 = 56, h8 = 63). -/
abbrev Board := List (Option Piece)

/-- Modelled from the spec: the repetition-relevant history key — a canonical
encoding of board + side-to-move + castling + en-passant. -/
structure RepKey where
  board : Board
  turn : Color
  castleWK : Bool
  castleWQ : Bool
  castleBK : Bool
  castleBQ : Bool
  epSquare : Option Nat
deriving DecidableEq

/-- Modelled from the spec: the authoritative chess state at one instant,
including the keys of all earlier positions of the game (for threefold
repetition detection). -/
structure Position where
  board : Board
  turn : Color
  castleWK : Bool
  castleWQ : Bool
  castleBK : Bool
  castleBQ : Bool
  epSquare : Option Nat
  halfmoveClock : Nat
  fullmoveNumber : Nat
  prevKeys : List RepKey
deriving DecidableEq

/-- Modelled from the spec: the repetition key of the current position. -/
def Position.repKey (p : Position) : RepKey :=
  ⟨p.board, p.turn, p.castleWK, p.castleWQ, p.castleBK, p.castleBQ, p.epSquare⟩

/-- Modelled from the spec: a move is an origin square, a destination square,
and an optional promotion piece kind. -/
structure Move where
  fromSq : Nat
  toSq : Nat
  promo : Option PieceKind
deriving DecidableEq

def fileOf (sq : Nat) : Nat := sq % 8

def rankOf (sq : Nat) : Nat := sq / 8

def pieceAt (b : Board) (sq : Nat) : Option Piece := b.getD sq none

/-- The square with file `f` and rank `r` when both are on the board. -/
def mkSq (f r : Int) : Option Nat :=
  if 0 ≤ f ∧ f < 8 ∧ 0 ≤ r ∧ r < 8 then some ((r * 8 + f).toNat) else none

def knightOffsets : List (Int × Int) :=
  [(1, 2), (2, 1), (2, -1), (1, -2), (-1, -2), (-2, -1), (-2, 1), (-1, 2)]

def kingOffsets : List (Int × Int) :=
  [(1, 0), (1, 1), (0, 1), (-1, 1), (-1, 0), (-1, -1), (0, -1), (1, -1)]

def rookDirs : List (Int × Int) := [(1, 0), (-1, 0), (0, 1), (0, -1)]

def bishopDirs : List (Int × Int) := [(1, 1), (1, -1), (-1, 1), (-1, -1)]

/-- Is a piece `⟨c, k⟩` sitting on file `f`, rank `r`? -/
def hasPieceAtOff (b : Board) (c : Color) (k : PieceKind) (f r : Int) : Bool :=
  match mkSq f r with
  | none => false
  | some sq => decide (pieceAt b sq = some ⟨c, k⟩)

/-- First piece met scanning from `(f, r)` in direction `(df, dr)`. -/
def ray (b : Board) (f r df dr : Int) : Nat → Option Piece
  | 0 => none
  | fuel + 1 =>
    match mkSq (f + df) (r + dr) with
    | none => none
    | some sq =>
      match pieceAt b sq with
      | some p => some p
      | none => ray b (f + df) (r + dr) df dr fuel

/-- Does the first piece on a ray deliver a sliding attack for color `c`
(`dirRook` true for rook directions, false for bishop directions)? -/
def sliderHit (dirRook : Bool) (c : Color) : Option Piece → Bool
  | none => false
  | some p =>
    decide (p.color = c) &&
      (decide (p.kind = PieceKind.queen) ||
        decide (p.kind = (if dirRook then PieceKind.rook else PieceKind.bishop)))

/-- Modelled from the spec: `square_attacked` — whether any piece of color `c`
attacks square `t`, accounting for all piece movement rules including pawn
diagonal attack asymmetry, regardless of legality. -/
def attacked (b : Board) (c : Color) (t : Nat) : Bool :=
  let f : Int := fileOf t
  let r : Int := rankOf t
  let pawnDr : Int := if c = Color.white then -1 else 1
  (hasPieceAtOff b c PieceKind.pawn (f - 1) (r + pawnDr) ||
      hasPieceAtOff b c PieceKind.pawn (f + 1) (r + pawnDr)) ||
    knightOffsets.any (fun d => hasPieceAtOff b c PieceKind.knight (f + d.1) (r + d.2)) ||
    kingOffsets.any (fun d => hasPieceAtOff b c PieceKind.king (f + d.1) (r + d.2)) ||
    rookDirs.any (fun d => sliderHit true c (ray b f r d.1 d.2 8)) ||
    bishopDirs.any (fun d => sliderHit false c (ray b f r d.1 d.2 8))

/-- The square of color `c`'s king, when present. -/
def kingSquare (b : Board) (c : Color) : Option Nat :=
  (List.range 64).find? (fun sq => decide (pieceAt b sq = some ⟨c, PieceKind.king⟩))

/-- Modelled from the spec: is color `c`'s king attacked by the other side? -/
def inCheck (p : Position) (c : Color) : Bool :=
  match kingSquare p.board c with
  | none => false
  | some sq => attacked p.board c.other sq

/-- Non-sliding moves (knight, king): each offset reaching an empty or
enemy-occupied square. -/
def stepMoves (b : Board) (c : Color) (sq : Nat) (offs : List (Int × Int)) : List Move :=
  offs.filterMap (fun d =>
    match mkSq ((fileOf sq : Int) + d.1) ((rankOf sq : Int) + d.2) with
    | none => none
    | some t =>
      match pieceAt b t with
      | none => some ⟨sq, t, none⟩
      | some q => if q.color = c then none else some ⟨sq, t, none⟩)

/-- Sliding moves along one direction: empty squares until the first piece,
which is a capture when it belongs to the enemy. -/
def slideFrom (b : Board) (c : Color) (sq : Nat) (f r df dr : Int) : Nat → List Move
  | 0 => []
  | fuel + 1 =>
    match mkSq (f + df) (r + dr) with
    | none => []
    | some t =>
      match pieceAt b t with
      | none => ⟨sq, t, none⟩ :: slideFrom b c sq (f + df) (r + dr) df dr fuel
      | some q => if q.color = c then [] else [⟨sq, t, none⟩]

def slideMoves (b : Board) (c : Color) (sq : Nat) (dirs : List (Int × Int)) : List Move :=
  (dirs.map (fun d => slideFrom b c sq (fileOf sq) (rankOf sq) d.1 d.2 8)).flatten

def promoKinds : List PieceKind :=
  [PieceKind.queen, PieceKind.rook, PieceKind.bishop, PieceKind.knight]

/-- Modelled from the spec: pawn moves from square `sq` for the side to move —
single push, double push from the start rank, diagonal captures (including
onto the stored en-passant target), with one move variant per promotion piece
kind when the pawn reaches the last rank. -/
def pawnMovesFrom (p : Position) (sq : Nat) : List Move :=
  let c := p.turn
  let f : Int := fileOf sq
  let r : Int := rankOf sq
  let dir : Int := if c = Color.white then 1 else -1
  let startR : Int := if c = Color.white then 1 else 6
  let promoR : Int := if c = Color.white then 7 else 0
  let mkPawn : Nat → List Move := fun t =>
    if (rankOf t : Int) = promoR then promoKinds.map (fun k => ⟨sq, t, some k⟩)
    else [⟨sq, t, none⟩]
  let single : List Move :=
    match mkSq f (r + dir) with
    | none => []
    | some t => if pieceAt p.board t = none then mkPawn t else []
  let dbl : List Move :=
    match mkSq f (r + dir), mkSq f (r + 2 * dir) with
    | some t1, some t2 =>
      if r = startR ∧ pieceAt p.board t1 = none ∧ pieceAt p.board t2 = none then
        [⟨sq, t2, none⟩]
      else []
    | _, _ => []
  let cap : Int → List Move := fun df =>
    match mkSq (f + df) (r + dir) with
    | none => []
    | some t =>
      match pieceAt p.board t with
      | some q => if q.color = c then [] else mkPawn t
      | none => if p.epSquare = some t then [⟨sq, t, none⟩] else []
  single ++ dbl ++ cap (-1) ++ cap 1

/-- Modelled from the spec: castling moves — the king moves two squares toward
a rook that still has its right; the squares between are unoccupied and the
king's start, transit and destination squares are unattacked. -/
def castleMoves (p : Position) : List Move :=
  let c := p.turn
  let b := p.board
  let opp := c.other
  let base : Nat := if c = Color.white then 0 else 56
  let kSq := base + 4
  let rightK := if c = Color.white then p.castleWK else p.castleBK
  let rightQ := if c = Color.white then p.castleWQ else p.castleBQ
  let ks : List Move :=
    if rightK = true ∧ pieceAt b kSq = some ⟨c, PieceKind.king⟩ ∧
        pieceAt b (base + 7) = some ⟨c, PieceKind.rook⟩ ∧
        pieceAt b (base + 5) = none ∧ pieceAt b (base + 6) = none ∧
        attacked b opp kSq = false ∧ attacked b opp (base + 5) = false ∧
        attacked b opp (base + 6) = false then
      [⟨kSq, base + 6, none⟩]
    else []
  let qs : List Move :=
    if rightQ = true ∧ pieceAt b kSq = some ⟨c, PieceKind.king⟩ ∧
        pieceAt b (base + 0) = some ⟨c, PieceKind.rook⟩ ∧
        pieceAt b (base + 1) = none ∧ pieceAt b (base + 2) = none ∧
        pieceAt b (base + 3) = none ∧
        attacked b opp kSq = false ∧ attacked b opp (base + 3) = false ∧
        attacked b opp (base + 2) = false then
      [⟨kSq, base + 2, none⟩]
    else []
  ks ++ qs

/-- Moves following the movement pattern of one piece, before the
king-safety filter. -/
def pieceMoves (p : Position) (sq : Nat) (pc : Piece) : List Move :=
  match pc.kind with
  | .pawn => pawnMovesFrom p sq
  | .knight => stepMoves p.board p.turn sq knightOffsets
  | .bishop => slideMoves p.board p.turn sq bishopDirs
  | .rook => slideMoves p.board p.turn sq rookDirs
  | .queen => slideMoves p.board p.turn sq (rookDirs ++ bishopDirs)
  | .king => stepMoves p.board p.turn sq kingOffsets

/-- All moves following piece movement patterns for the side to move,
castling included, before the king-safety filter. -/
def pseudoMoves (p : Position) : List Move :=
  ((List.range 64).map (fun sq =>
      match pieceAt p.board sq with
      | some pc => if pc.color = p.turn then pieceMoves p sq pc else []
      | none => [])).flatten ++ castleMoves p

/-- Modelled from the spec: `apply(position, move)` — updates piece placement
(including en-passant capture, promotion and the castling rook relocation),
side to move, castling rights, en-passant target, half-move clock (reset on
pawn move or capture, else incremented), full-move number (incremented after
black's move), and records the prior position's repetition key. -/
def applyMove (p : Position) (m : Move) : Position :=
  match pieceAt p.board m.fromSq with
  | none => p
  | some pc =>
    let captured := pieceAt p.board m.toSq
    let isEp : Bool :=
      decide (pc.kind = PieceKind.pawn) && decide (p.epSquare = some m.toSq) &&
        decide (captured = none)
    let placed : Piece :=
      match m.promo with
      | some k => ⟨pc.color, k⟩
      | none => pc
    let b1 := (p.board.set m.fromSq none).set m.toSq (some placed)
    let b2 := if isEp then b1.set (rankOf m.fromSq * 8 + fileOf m.toSq) none else b1
    let b3 :=
      if pc.kind = PieceKind.king ∧ fileOf m.fromSq = 4 ∧ fileOf m.toSq = 6 then
        (b2.set (rankOf m.fromSq * 8 + 7) none).set (rankOf m.fromSq * 8 + 5)
          (some ⟨pc.color, PieceKind.rook⟩)
      else if pc.kind = PieceKind.king ∧ fileOf m.fromSq = 4 ∧ fileOf m.toSq = 2 then
        (b2.set (rankOf m.fromSq * 8 + 0) none).set (rankOf m.fromSq * 8 + 3)
          (some ⟨pc.color, PieceKind.rook⟩)
      else b2
    { board := b3
      turn := p.turn.other
      castleWK := p.castleWK &&
        !(decide (m.fromSq = 4) || decide (m.fromSq = 7) || decide (m.toSq = 7))
      castleWQ := p.castleWQ &&
        !(decide (m.fromSq = 4) || decide (m.fromSq = 0) || decide (m.toSq = 0))
      castleBK := p.castleBK &&
        !(decide (m.fromSq = 60) || decide (m.fromSq = 63) || decide (m.toSq = 63))
      castleBQ := p.castleBQ &&
        !(decide (m.fromSq = 60) || decide (m.fromSq = 56) || decide (m.toSq = 56))
      epSquare :=
        if pc.kind = PieceKind.pawn ∧ (m.toSq = m.fromSq + 16 ∨ m.fromSq = m.toSq + 16) then
          some ((m.fromSq + m.toSq) / 2)
        else none
      halfmoveClock :=
        if pc.kind = PieceKind.pawn ∨ captured ≠ none then 0 else p.halfmoveClock + 1
      fullmoveNumber :=
        if p.turn = Color.black then p.fullmoveNumber + 1 else p.fullmoveNumber
      prevKeys := p.prevKeys ++ [p.repKey] }

/-- Modelled from the spec: `legal_moves(position)` — the moves following
piece movement patterns that do not leave the moving side's own king in check
once the move is applied. -/
def legalMoves (p : Position) : List Move :=
  (pseudoMoves p).filter (fun m => !inCheck (applyMove p m) p.turn)

/-- Modelled from the spec: the standard starting back rank R N B Q K B N R. -/
def backRank (c : Color) : List (Option Piece) :=
  [some ⟨c, PieceKind.rook⟩, some ⟨c, PieceKind.knight⟩, some ⟨c, PieceKind.bishop⟩,
    some ⟨c, PieceKind.queen⟩, some ⟨c, PieceKind.king⟩, some ⟨c, PieceKind.bishop⟩,
    some ⟨c, PieceKind.knight⟩, some ⟨c, PieceKind.rook⟩]

def pawnRank (c : Color) : List (Option Piece) := List.replicate 8 (some ⟨c, PieceKind.pawn⟩)

def emptyRank : List (Option Piece) := List.replicate 8 none

/-- Modelled from the spec: the standard starting position. -/
def startPosition : Position :=
  { board := backRank Color.white ++ pawnRank Color.white ++ emptyRank ++ emptyRank ++
      emptyRank ++ emptyRank ++ pawnRank Color.black ++ backRank Color.black
    turn := Color.white
    castleWK := true
    castleWQ := true
    castleBK := true
    castleBQ := true
    epSquare := none
    halfmoveClock := 0
    fullmoveNumber := 1
    prevKeys := [] }

/-- Modelled from the spec: the side to move's king is attacked
(python-chess `Board.is_check`). -/
def isCheckB (p : Position) : Bool := inCheck p p.turn

/-- Modelled from the spec: side to move has no legal moves and is in check
(python-chess `Board.is_checkmate`). -/
def isCheckmateB (p : Position) : Bool :=
  decide (legalMoves p = []) && isCheckB p

/-- Modelled from the spec: side to move has no legal moves and is not in
check (python-chess `Board.is_stalemate`). -/
def isStalemateB (p : Position) : Bool :=
  decide (legalMoves p = []) && !isCheckB p

def nonKingPieces (b : Board) : List (Nat × Piece) :=
  (List.range 64).filterMap (fun sq =>
    match pieceAt b sq with
    | some pc => if pc.kind = PieceKind.king then none else some (sq, pc)
    | none => none)

def darkSquare (sq : Nat) : Bool := decide ((fileOf sq + rankOf sq) % 2 = 0)

/-- Modelled from the spec: neither side retains enough material to force
mate — lone kings, king plus one minor piece versus king, or only bishops
all standing on squares of one color (python-chess
`Board.is_insufficient_material`). -/
def insufficientMaterialB (p : Position) : Bool :=
  let ps := nonKingPieces p.board
  (match ps with
    | [] => true
    | [(_, pc)] => decide (pc.kind = PieceKind.knight ∨ pc.kind = PieceKind.bishop)
    | _ => false) ||
    (ps.all (fun x => decide (x.2.kind = PieceKind.bishop)) &&
      (ps.all (fun x => darkSquare x.1) || ps.all (fun x => !darkSquare x.1)))

/-- Modelled from the spec: the fifty-move rule is claimable when the
half-move clock has reached 100 (python-chess `Board.can_claim_fifty_moves`). -/
def canClaimFiftyB (p : Position) : Bool := decide (100 ≤ p.halfmoveClock)

/-- Modelled from the spec: threefold repetition is claimable when the current
repetition key has occurred at least three times across the game's position
history (python-chess `Board.can_claim_threefold_repetition`). -/
def canClaimThreefoldB (p : Position) : Bool :=
  decide (3 ≤ (p.prevKeys ++ [p.repKey]).count p.repKey)

/-- Embedding of `compute_game_status` (src/chess_backend/src/api/chess_engine.py,
lines 77–95): the if-chain classifying a board, plus the winner for checkmate. -/
def compute_game_status (b : Position) : String × Option String :=
  if isCheckmateB b then
    ("checkmate", some (if b.turn = Color.white then "black" else "white"))
  else if isStalemateB b then ("stalemate", none)
  else if insufficientMaterialB b then ("draw_insufficient_material", none)
  else if canClaimFiftyB b then ("draw_fifty_move_rule_claimable", none)
  else if canClaimThreefoldB b then ("draw_threefold_repetition_claimable", none)
  else if isCheckB b then ("check", none)
  else ("active", none)

/-- Modelled from the spec: decode a file letter a–h. -/
def fileOfChar (c : Char) : Option Nat :=
  match c with
  | 'a' => some 0
  | 'b' => some 1
  | 'c' => some 2
  | 'd' => some 3
  | 'e' => some 4
  | 'f' => some 5
  | 'g' => some 6
  | 'h' => some 7
  | _ => none

/-- Modelled from the spec: decode a rank digit 1–8. -/
def rankOfChar (c : Char) : Option Nat :=
  match c with
  | '1' => some 0
  | '2' => some 1
  | '3' => some 2
  | '4' => some 3
  | '5' => some 4
  | '6' => some 5
  | '7' => some 6
  | '8' => some 7
  | _ => none

/-- Modelled from the spec: decode a promotion letter q/r/b/n. -/
def promoOfChar (c : Char) : Option PieceKind :=
  match c with
  | 'q' => some PieceKind.queen
  | 'r' => some PieceKind.rook
  | 'b' => some PieceKind.bishop
  | 'n' => some PieceKind.knight
  | _ => none

def squareOfChars (cf cr : Char) : Option Nat :=
  match fileOfChar cf, rankOfChar cr with
  | some f, some r => some (r * 8 + f)
  | _, _ => none

/-- Modelled from the spec: `parse_move_text` — succeeds exactly on four or
five characters of the canonical encoding (origin file+rank, destination
file+rank, optional promotion letter), never consulting board state. -/
def parse_move_text (s : String) : Option Move :=
  match s.data with
  | [c1, c2, c3, c4] =>
    (match squareOfChars c1 c2, squareOfChars c3 c4 with
     | some a, some b => some ⟨a, b, none⟩
     | _, _ => none)
  | [c1, c2, c3, c4, c5] =>
    (match squareOfChars c1 c2, squareOfChars c3 c4, promoOfChar c5 with
     | some a, some b, some k => some ⟨a, b, some k⟩
     | _, _, _ => none)
  | _ => none

def charOfFile (f : Nat) : Char :=
  match f with
  | 0 => 'a'
  | 1 => 'b'
  | 2 => 'c'
  | 3 => 'd'
  | 4 => 'e'
  | 5 => 'f'
  | 6 => 'g'
  | _ => 'h'

def charOfRank (r : Nat) : Char :=
  match r with
  | 0 => '1'
  | 1 => '2'
  | 2 => '3'
  | 3 => '4'
  | 4 => '5'
  | 5 => '6'
  | 6 => '7'
  | _ => '8'

def charOfPromo (k : PieceKind) : Char :=
  match k with
  | .rook => 'r'
  | .bishop => 'b'
  | .knight => 'n'
  | _ => 'q'

/-- Modelled from the spec: the canonical textual encoding of a move. -/
def uciOfMove (m : Move) : String :=
  String.mk
    ([charOfFile (fileOf m.fromSq), charOfRank (rankOf m.fromSq),
        charOfFile (fileOf m.toSq), charOfRank (rankOf m.toSq)] ++
      (match m.promo with
       | none => []
       | some k => [charOfPromo k]))

/-- Embedding of the `GameState` dataclass
(src/chess_backend/src/api/chess_engine.py, lines 18–24). -/
structure GameState where
  game_id : String
  created_at_ms : Int
  board : Position
  move_history_uci : List String
deriving DecidableEq

/-- The `InMemoryGameStore._games` dict, as an association list whose keys
are unique (Python dict semantics: lookup by key, assignment replaces). -/
abbrev Store := List (String × GameState)

def storeGet : Store → String → Option GameState
  | [], _ => none
  | e :: rest, gid => if e.1 = gid then some e.2 else storeGet rest gid

def storeSet : Store → String → GameState → Store
  | [], gid, g => [(gid, g)]
  | e :: rest, gid, g => if e.1 = gid then (gid, g) :: rest else e :: storeSet rest gid g

/-- Embedding of `InMemoryGameStore.create_game` (chess_engine.py, lines
33–40): the generated token and the clock reading are nondeterministic, so
they are passed as parameters; the new game is assigned into the dict
(replacing any entry under the same key, as Python dict assignment does). -/
def create_game (st : Store) (gid : String) (now_ms : Int) : GameState × Store :=
  let g : GameState := ⟨gid, now_ms, startPosition, []⟩
  (g, storeSet st gid g)

/-- Embedding of `InMemoryGameStore.get_game` (chess_engine.py, lines 42–43). -/
def get_game (st : Store) (gid : String) : Option GameState := storeGet st gid

/-- Embedding of `InMemoryGameStore.restart_game` (chess_engine.py, lines
48–54): reset board and history in place, keep id and creation timestamp. -/
def restart_game (st : Store) (gid : String) : Option GameState × Store :=
  match storeGet st gid with
  | none => (none, st)
  | some g =>
    let g' : GameState := { g with board := startPosition, move_history_uci := [] }
    (some g', storeSet st gid g')

/-- Embedding of `try_apply_move` (chess_engine.py, lines 102–118): parse the
UCI text, reject when not legal, else push the move and append the text; the
mutated game is returned explicitly. -/
def try_apply_move (g : GameState) (uci : String) : (Bool × String) × GameState :=
  match parse_move_text uci with
  | none => ((false, "Invalid UCI move format."), g)
  | some m =>
    if m ∈ legalMoves g.board then
      ((true, ""),
        { g with
            board := applyMove g.board m
            move_history_uci := g.move_history_uci ++ [uci] })
    else ((false, "Illegal move for current position."), g)

/-- Outcome of the `submit_move` endpoint, abstracting the HTTP response. -/
inductive MoveOutcome
  | notFound
  | rejected (error : String)
  | applied
deriving DecidableEq

/-- Embedding of the `submit_move` endpoint (src/chess_backend/src/api/main.py,
lines 115–125): look the game up (404 when absent), run `try_apply_move`, and
store the game object back (in Python the mutation is in place, so the dict
always holds the game `try_apply_move` returned). -/
def submit_move (st : Store) (gid : String) (uci : String) : MoveOutcome × Store :=
  match storeGet st gid with
  | none => (.notFound, st)
  | some g =>
    let r := try_apply_move g uci
    ((if r.1.1 then .applied else .rejected r.1.2), storeSet st gid r.2)

/-- One step of replaying a history entry: parse it, require legality, apply. -/
def replayStep (acc : Option Position) (s : String) : Option Position :=
  match acc with
  | none => none
  | some p =>
    match parse_move_text s with
    | none => none
    | some m => if m ∈ legalMoves p then some (applyMove p m) else none

/-- Replaying a move history in order from the standard starting position. -/
def replay (moves : List String) : Option Position :=
  moves.foldl replayStep (some startPosition)

/-- The history invariant of one game: replaying its move history from the
starting position reproduces exactly its current board. -/
def HistoryInv (g : GameState) : Prop := replay g.move_history_uci = some g.board

/-- The history invariant of every game held by the store. -/
def StoreInv (st : Store) : Prop :=
  ∀ gid g, storeGet st gid = some g → HistoryInv g

/-- The spec's file letters a–h of the canonical move encoding. -/
def fileLetters : List Char := ['a', 'b', 'c', 'd', 'e', 'f', 'g', 'h']

/-- The spec's rank digits 1–8 of the canonical move encoding. -/
def rankDigits : List Char := ['1', '2', '3', '4', '5', '6', '7', '8']

/-- The spec's four permitted promotion letters q/r/b/n. -/
def promoLetters : List Char := ['q', 'r', 'b', 'n']

/-- Stated from the spec's words, independently of the parser: the text is
four or five characters drawn from the canonical encoding — origin file and
rank, destination file and rank, optional promotion letter. -/
def CanonicalMoveText (s : String) : Prop :=
  (∃ c1 c2 c3 c4, s.data = [c1, c2, c3, c4] ∧
    c1 ∈ fileLetters ∧ c2 ∈ rankDigits ∧ c3 ∈ fileLetters ∧ c4 ∈ rankDigits) ∨
  (∃ c1 c2 c3 c4 c5, s.data = [c1, c2, c3, c4, c5] ∧
    c1 ∈ fileLetters ∧ c2 ∈ rankDigits ∧ c3 ∈ fileLetters ∧ c4 ∈ rankDigits ∧
    c5 ∈ promoLetters)

/-- A stored game that differs from a freshly created one (a move has been
played and the creation timestamp is 5), used to exhibit what an identifier
collision on create does. -/
def staleGame : GameState :=
  { game_id := "dup", created_at_ms := 5, board := startPosition,
    move_history_uci := ["e2e4"] }

/-- A store already holding `staleGame` under the identifier "dup". -/
def dupStore : Store := [("dup", staleGame)]

/-- A store holding two freshly created games "a" and "b". -/
def twoGameStore : Store := (create_game (create_game [] "a" 0).2 "b" 1).2

/-! ### Store lemmas -/

lemma storeGet_storeSet_self (st : Store) (gid : String) (g : GameState) :
    storeGet (storeSet st gid g) gid = some g := by
  induction st with
  | nil => simp [storeSet, storeGet]
  | cons e rest ih =>
    by_cases h : e.1 = gid
    · simp [storeSet, storeGet, h]
    · simp [storeSet, storeGet, h, ih]

lemma storeGet_storeSet_other {gid gid' : String} (st : Store) (g : GameState)
    (h : gid' ≠ gid) : storeGet (storeSet st gid g) gid' = storeGet st gid' := by
  induction st with
  | nil => simp [storeSet, storeGet, Ne.symm h]
  | cons e rest ih =>
    by_cases he : e.1 = gid
    · subst he
      simp [storeSet, storeGet, Ne.symm h]
    · simp only [storeSet, if_neg he]
      by_cases he' : e.1 = gid'
      · simp [storeGet, he']
      · simp [storeGet, he', ih]

lemma storeSet_of_get {st : Store} {gid : String} {g : GameState}
    (h : storeGet st gid = some g) : storeSet st gid g = st := by
  induction st with
  | nil => simp [storeGet] at h
  | cons e rest ih =>
    by_cases he : e.1 = gid
    · simp only [storeGet, if_pos he, Option.some.injEq] at h
      simp only [storeSet, if_pos he]
      rw [← he, ← h]
    · simp only [storeGet, if_neg he] at h
      simp only [storeSet, if_neg he]
      rw [ih h]

/-! ### Parser round-trip lemmas -/

lemma fileOfChar_inv {c : Char} {f : Nat} (h : fileOfChar c = some f) :
    charOfFile f = c ∧ f < 8 := by
  unfold fileOfChar at h
  split at h <;> cases h <;> exact ⟨rfl, by omega⟩

lemma rankOfChar_inv {c : Char} {r : Nat} (h : rankOfChar c = some r) :
    charOfRank r = c ∧ r < 8 := by
  unfold rankOfChar at h
  split at h <;> cases h <;> exact ⟨rfl, by omega⟩

lemma promoOfChar_inv {c : Char} {k : PieceKind} (h : promoOfChar c = some k) :
    charOfPromo k = c := by
  unfold promoOfChar at h
  split at h <;> cases h <;> rfl

lemma squareOfChars_inv {cf cr : Char} {sq : Nat} (h : squareOfChars cf cr = some sq) :
    charOfFile (fileOf sq) = cf ∧ charOfRank (rankOf sq) = cr := by
  unfold squareOfChars at h
  split at h
  next f r hf hr =>
    obtain ⟨hcf, hf8⟩ := fileOfChar_inv hf
    obtain ⟨hcr, hr8⟩ := rankOfChar_inv hr
    obtain rfl : r * 8 + f = sq := by simpa using h
    have h1 : fileOf (r * 8 + f) = f := by unfold fileOf; omega
    have h2 : rankOf (r * 8 + f) = r := by unfold rankOf; omega
    rw [h1, h2]
    exact ⟨hcf, hcr⟩
  next => simp at h

lemma parse_move_text_roundtrip {s : String} {m : Move}
    (h : parse_move_text s = some m) : uciOfMove m = s := by
  obtain ⟨l⟩ := s
  unfold parse_move_text at h
  split at h
  next c1 c2 c3 c4 heq =>
    split at h
    next a b ha hb =>
      obtain rfl : (⟨a, b, none⟩ : Move) = m := by simpa using h
      obtain ⟨h1, h2⟩ := squareOfChars_inv ha
      obtain ⟨h3, h4⟩ := squareOfChars_inv hb
      obtain rfl : l = [c1, c2, c3, c4] := heq
      simp [uciOfMove, h1, h2, h3, h4]
    next => simp at h
  next c1 c2 c3 c4 c5 heq =>
    split at h
    next a b k ha hb hk =>
      obtain rfl : (⟨a, b, some k⟩ : Move) = m := by simpa using h
      obtain ⟨h1, h2⟩ := squareOfChars_inv ha
      obtain ⟨h3, h4⟩ := squareOfChars_inv hb
      have h5 := promoOfChar_inv hk
      obtain rfl : l = [c1, c2, c3, c4, c5] := heq
      simp [uciOfMove, h1, h2, h3, h4, h5]
    next => simp at h
  next => simp at h

/-! ### Origin of generated moves -/

lemma stepMoves_fromSq {b : Board} {c : Color} {sq : Nat} {offs : List (Int × Int)}
    {m : Move} (h : m ∈ stepMoves b c sq offs) : m.fromSq = sq := by
  unfold stepMoves at h
  rw [List.mem_filterMap] at h
  obtain ⟨d, _, hd⟩ := h
  split at hd
  · exact absurd hd (by simp)
  · split at hd
    · obtain rfl : (⟨sq, _, none⟩ : Move) = m := by simpa using hd
      rfl
    · split at hd
      · exact absurd hd (by simp)
      · obtain rfl : (⟨sq, _, none⟩ : Move) = m := by simpa using hd
        rfl

lemma slideFrom_fromSq {b : Board} {c : Color} {sq : Nat} {m : Move} :
    ∀ {f r df dr : Int} {fuel : Nat}, m ∈ slideFrom b c sq f r df dr fuel → m.fromSq = sq := by
  intro f r df dr fuel
  induction fuel generalizing f r with
  | zero => intro h; simp [slideFrom] at h
  | succ n ih =>
    intro h
    unfold slideFrom at h
    split at h
    · simp at h
    · split at h
      · rcases List.mem_cons.mp h with h1 | h1
        · subst h1; rfl
        · exact ih h1
      · split at h
        · simp at h
        · obtain rfl : m = ⟨sq, _, none⟩ := by simpa using h
          rfl

lemma slideMoves_fromSq {b : Board} {c : Color} {sq : Nat} {dirs : List (Int × Int)}
    {m : Move} (h : m ∈ slideMoves b c sq dirs) : m.fromSq = sq := by
  unfold slideMoves at h
  rw [List.mem_flatten] at h
  obtain ⟨l, hl, hm⟩ := h
  rw [List.mem_map] at hl
  obtain ⟨d, _, rfl⟩ := hl
  exact slideFrom_fromSq hm

lemma pawnMovesFrom_fromSq {p : Position} {sq : Nat} {m : Move}
    (h : m ∈ pawnMovesFrom p sq) : m.fromSq = sq := by
  unfold pawnMovesFrom at h
  simp only [List.mem_append] at h
  rcases h with ((h | h) | h) | h <;>
    (repeat' split at h) <;>
    first
      | (rw [List.mem_singleton] at h; subst h; rfl)
      | (rw [List.mem_map] at h
         obtain ⟨k, hk, rfl⟩ := h
         rfl)
      | simp at h

lemma castleMoves_origin {p : Position} {m : Move} (h : m ∈ castleMoves p) :
    pieceAt p.board m.fromSq = some ⟨p.turn, PieceKind.king⟩ := by
  unfold castleMoves at h
  simp only [List.mem_append] at h
  rcases h with h | h <;>
    (repeat' split at h) <;>
    first
      | (rw [List.mem_singleton] at h; subst h; simp_all)
      | simp at h

lemma pseudoMoves_origin {p : Position} {m : Move} (h : m ∈ pseudoMoves p) :
    ∃ pc, pieceAt p.board m.fromSq = some pc ∧ pc.color = p.turn := by
  unfold pseudoMoves at h
  rw [List.mem_append] at h
  rcases h with h | h
  · rw [List.mem_flatten] at h
    obtain ⟨l, hl, hm⟩ := h
    rw [List.mem_map] at hl
    obtain ⟨sq, hsq, rfl⟩ := hl
    split at hm
    · next pc hpc =>
      split at hm
      · next hcol =>
        have hfrom : m.fromSq = sq := by
          unfold pieceMoves at hm
          split at hm
          · exact pawnMovesFrom_fromSq hm
          · exact stepMoves_fromSq hm
          · exact slideMoves_fromSq hm
          · exact slideMoves_fromSq hm
          · exact slideMoves_fromSq hm
          · exact stepMoves_fromSq hm
        exact ⟨pc, by rw [hfrom]; exact hpc, hcol⟩
      · simp at hm
    · simp at hm
  · exact ⟨⟨p.turn, PieceKind.king⟩, castleMoves_origin h, rfl⟩

lemma applyMove_turn {p : Position} {m : Move}
    (h : ∃ pc, pieceAt p.board m.fromSq = some pc ∧ pc.color = p.turn) :
    (applyMove p m).turn = p.turn.other := by
  obtain ⟨pc, hpc, _⟩ := h
  unfold applyMove
  rw [hpc]

lemma legalMoves_turn {p : Position} {m : Move} (h : m ∈ legalMoves p) :
    (applyMove p m).turn = p.turn.other := by
  unfold legalMoves at h
  rw [List.mem_filter] at h
  exact applyMove_turn (pseudoMoves_origin h.1)

/-! ### Parser totality lemmas -/

lemma fileOfChar_isSome {c : Char} : (fileOfChar c).isSome = true ↔ c ∈ fileLetters := by
  unfold fileOfChar
  split <;> simp_all [fileLetters]

lemma rankOfChar_isSome {c : Char} : (rankOfChar c).isSome = true ↔ c ∈ rankDigits := by
  unfold rankOfChar
  split <;> simp_all [rankDigits]

lemma promoOfChar_isSome {c : Char} : (promoOfChar c).isSome = true ↔ c ∈ promoLetters := by
  unfold promoOfChar
  split <;> simp_all [promoLetters]

lemma squareOfChars_isSome {cf cr : Char} {sq : Nat} (h : squareOfChars cf cr = some sq) :
    cf ∈ fileLetters ∧ cr ∈ rankDigits := by
  unfold squareOfChars at h
  split at h
  · next f r hf hr =>
    exact ⟨fileOfChar_isSome.mp (by simp [hf]), rankOfChar_isSome.mp (by simp [hr])⟩
  · simp at h

/-! ### Frame and invariant lemmas -/

lemma try_apply_move_fail_frame {g : GameState} {uci : String}
    (h : (try_apply_move g uci).1.1 = false) : (try_apply_move g uci).2 = g := by
  revert h
  unfold try_apply_move
  cases hp : parse_move_text uci with
  | none => intro h; rfl
  | some m =>
    by_cases hleg : m ∈ legalMoves g.board <;> simp [hleg]

lemma historyInv_try_apply_move {g : GameState} {uci : String} (h : HistoryInv g) :
    HistoryInv (try_apply_move g uci).2 := by
  unfold try_apply_move
  cases hp : parse_move_text uci with
  | none => exact h
  | some m =>
    by_cases hleg : m ∈ legalMoves g.board
    · simp only [hleg, if_pos]
      show replay (g.move_history_uci ++ [uci]) = some (applyMove g.board m)
      have hh : replay g.move_history_uci = some g.board := h
      unfold replay at hh ⊢
      rw [List.foldl_append, hh]
      show replayStep (some g.board) uci = some (applyMove g.board m)
      unfold replayStep
      rw [hp]
      simp [hleg]
    · simp only [hleg, if_neg, if_false]
      exact h

lemma storeInv_storeSet {st : Store} {gid : String} {g : GameState}
    (hs : StoreInv st) (hg : HistoryInv g) : StoreInv (storeSet st gid g) := by
  intro gid' g' h'
  by_cases he : gid' = gid
  · subst he
    rw [storeGet_storeSet_self] at h'
    cases h'
    exact hg
  · rw [storeGet_storeSet_other st g he] at h'
    exact hs gid' g' h'

/-! ### Claim theorems -/

/-- C1: for every Position, `compute_game_status` classifies it by the first
matching condition in the fixed priority order checkmate (no legal moves and
in check) > stalemate (no legal moves, not in check) > insufficient material >
fifty-move claimable (half-move clock ≥ 100) > threefold claimable (repetition
key occurred at least three times in the game's position history) > check >
active, and it reports a winner — the side opposite the side to move —
exactly when the status is checkmate. -/
theorem compute_game_status_priority (b : Position) :
    ((compute_game_status b).1 = "checkmate" ↔
      (legalMoves b = [] ∧ inCheck b b.turn = true)) ∧
    ((compute_game_status b).1 = "stalemate" ↔
      (legalMoves b = [] ∧ inCheck b b.turn = false)) ∧
    ((compute_game_status b).1 = "draw_insufficient_material" ↔
      (legalMoves b ≠ [] ∧ insufficientMaterialB b = true)) ∧
    ((compute_game_status b).1 = "draw_fifty_move_rule_claimable" ↔
      (legalMoves b ≠ [] ∧ insufficientMaterialB b = false ∧ 100 ≤ b.halfmoveClock)) ∧
    ((compute_game_status b).1 = "draw_threefold_repetition_claimable" ↔
      (legalMoves b ≠ [] ∧ insufficientMaterialB b = false ∧ b.halfmoveClock < 100 ∧
        3 ≤ (b.prevKeys ++ [b.repKey]).count b.repKey)) ∧
    ((compute_game_status b).1 = "check" ↔
      (legalMoves b ≠ [] ∧ insufficientMaterialB b = false ∧ b.halfmoveClock < 100 ∧
        (b.prevKeys ++ [b.repKey]).count b.repKey < 3 ∧ inCheck b b.turn = true)) ∧
    ((compute_game_status b).1 = "active" ↔
      (legalMoves b ≠ [] ∧ insufficientMaterialB b = false ∧ b.halfmoveClock < 100 ∧
        (b.prevKeys ++ [b.repKey]).count b.repKey < 3 ∧ inCheck b b.turn = false)) ∧
    (∀ w, (compute_game_status b).2 = some w ↔
      ((compute_game_status b).1 = "checkmate" ∧
        w = (if b.turn = Color.white then "black" else "white"))) := by
  cases hD : decide (legalMoves b = []) <;>
    cases hC : inCheck b b.turn <;>
    cases hI : insufficientMaterialB b <;>
    cases hF : decide (100 ≤ b.halfmoveClock) <;>
    simp [compute_game_status, isCheckmateB, isStalemateB, isCheckB,
      canClaimFiftyB, canClaimThreefoldB, hD, hC, hI, hF] <;>
    by_cases hT : 2 ≤ List.count b.repKey b.prevKeys <;>
    (try simp [hT]) <;>
    (try simp_all) <;>
    (try omega) <;>
    (try (intro w; exact eq_comm))

/-- C9: every game returned by `create_game` holds the standard starting
position with an empty move history, and the starting position's legal-move
set contains exactly 20 moves. -/
theorem create_game_start (st : Store) (gid : String) (now_ms : Int) :
    (create_game st gid now_ms).1.board = startPosition ∧
    (create_game st gid now_ms).1.move_history_uci = [] ∧
    (legalMoves startPosition).length = 20 :=
  ⟨rfl, rfl, by decide⟩

/-- C2: `try_apply_move` succeeds exactly when the text parses as a move that
is a member of the current position's legal-move set; on success the move's
canonical text is appended to the history and the position is replaced by the
position with the move applied, with the side to move alternated. -/
theorem try_apply_move_success_spec (g : GameState) (uci : String) :
    ((try_apply_move g uci).1.1 = true ↔
      ∃ m, parse_move_text uci = some m ∧ m ∈ legalMoves g.board) ∧
    (∀ m, parse_move_text uci = some m → m ∈ legalMoves g.board →
      try_apply_move g uci =
        ((true, ""),
          { g with
              board := applyMove g.board m
              move_history_uci := g.move_history_uci ++ [uciOfMove m] }) ∧
      (applyMove g.board m).turn = g.board.turn.other) := by
  constructor
  · constructor
    · intro h
      unfold try_apply_move at h
      split at h
      · simp at h
      · next m hm =>
        split at h
        · next hleg => exact ⟨m, hm, hleg⟩
        · simp at h
    · rintro ⟨m, hm, hleg⟩
      unfold try_apply_move
      rw [hm]
      simp [hleg]
  · intro m hm hleg
    have hu : uciOfMove m = uci := parse_move_text_roundtrip hm
    refine ⟨?_, legalMoves_turn hleg⟩
    unfold try_apply_move
    rw [hm]
    simp [hleg, hu]

/-- C3: every failing move submission — unknown identifier at the store
boundary, parse failure, or illegal move — leaves the game and the store
unchanged and returns the specific failure reason distinguishing the cases. -/
theorem move_failure_leaves_state_unchanged (st : Store) (gid : String)
    (uci : String) (g : GameState) :
    (storeGet st gid = none → submit_move st gid uci = (MoveOutcome.notFound, st)) ∧
    (parse_move_text uci = none →
      try_apply_move g uci = ((false, "Invalid UCI move format."), g)) ∧
    (∀ m, parse_move_text uci = some m → m ∉ legalMoves g.board →
      try_apply_move g uci = ((false, "Illegal move for current position."), g)) ∧
    ((try_apply_move g uci).1.1 = false → (try_apply_move g uci).2 = g) ∧
    (storeGet st gid = some g → (try_apply_move g uci).1.1 = false →
      (submit_move st gid uci).2 = st) := by
  refine ⟨?_, ?_, ?_, fun h => try_apply_move_fail_frame h, ?_⟩
  · intro h
    unfold submit_move
    rw [h]
  · intro h
    unfold try_apply_move
    rw [h]
  · intro m hm hnl
    unfold try_apply_move
    rw [hm]
    simp [hnl]
  · intro hg h
    unfold submit_move
    rw [hg]
    simp only
    rw [try_apply_move_fail_frame h, storeSet_of_get hg]

/-- C4: `parse_move_text` fails exactly when the text is not four or five
characters drawn from the canonical encoding — origin file a–h and rank 1–8,
destination file and rank, optional promotion letter q/r/b/n; the parser is a
function of the text alone, so it neither consults nor modifies board state. -/
theorem parse_move_text_canonical (s : String) :
    parse_move_text s = none ↔ ¬CanonicalMoveText s := by
  have key : (∃ m, parse_move_text s = some m) ↔ CanonicalMoveText s := by
    constructor
    · rintro ⟨m, hm⟩
      unfold parse_move_text at hm
      split at hm
      · next c1 c2 c3 c4 heq =>
        left
        split at hm
        · next a b ha hb =>
          obtain ⟨h1, h2⟩ := squareOfChars_isSome ha
          obtain ⟨h3, h4⟩ := squareOfChars_isSome hb
          exact ⟨c1, c2, c3, c4, heq, h1, h2, h3, h4⟩
        · simp at hm
      · next c1 c2 c3 c4 c5 heq =>
        right
        split at hm
        · next a b k ha hb hk =>
          obtain ⟨h1, h2⟩ := squareOfChars_isSome ha
          obtain ⟨h3, h4⟩ := squareOfChars_isSome hb
          have h5 : c5 ∈ promoLetters := promoOfChar_isSome.mp (by simp [hk])
          exact ⟨c1, c2, c3, c4, c5, heq, h1, h2, h3, h4, h5⟩
        · simp at hm
      · simp at hm
    · rintro (⟨c1, c2, c3, c4, heq, h1, h2, h3, h4⟩ |
        ⟨c1, c2, c3, c4, c5, heq, h1, h2, h3, h4, h5⟩)
      · rw [← fileOfChar_isSome, Option.isSome_iff_exists] at h1 h3
        rw [← rankOfChar_isSome, Option.isSome_iff_exists] at h2 h4
        obtain ⟨f1, hf1⟩ := h1
        obtain ⟨r1, hr1⟩ := h2
        obtain ⟨f2, hf2⟩ := h3
        obtain ⟨r2, hr2⟩ := h4
        exact ⟨⟨r1 * 8 + f1, r2 * 8 + f2, none⟩, by
          simp [parse_move_text, heq, squareOfChars, hf1, hr1, hf2, hr2]⟩
      · rw [← fileOfChar_isSome, Option.isSome_iff_exists] at h1 h3
        rw [← rankOfChar_isSome, Option.isSome_iff_exists] at h2 h4
        rw [← promoOfChar_isSome, Option.isSome_iff_exists] at h5
        obtain ⟨f1, hf1⟩ := h1
        obtain ⟨r1, hr1⟩ := h2
        obtain ⟨f2, hf2⟩ := h3
        obtain ⟨r2, hr2⟩ := h4
        obtain ⟨k, hk⟩ := h5
        exact ⟨⟨r1 * 8 + f1, r2 * 8 + f2, some k⟩, by
          simp [parse_move_text, heq, squareOfChars, hf1, hr1, hf2, hr2, hk]⟩
  rw [← key]
  cases hp : parse_move_text s <;> simp

/-- C5: `restart_game` resets the identified game's position to the standard
starting position and clears its move history while preserving identifier and
creation timestamp, leaves every other game untouched, and returns not-found
without modifying anything when the identifier is unknown. -/
theorem restart_game_spec (st : Store) (gid : String) :
    (storeGet st gid = none → restart_game st gid = (none, st)) ∧
    (∀ g, storeGet st gid = some g →
      ∃ g', restart_game st gid = (some g', storeSet st gid g') ∧
        g'.game_id = g.game_id ∧ g'.created_at_ms = g.created_at_ms ∧
        g'.board = startPosition ∧ g'.move_history_uci = [] ∧
        storeGet (restart_game st gid).2 gid = some g' ∧
        (∀ gid', gid' ≠ gid →
          storeGet (restart_game st gid).2 gid' = storeGet st gid')) := by
  constructor
  · intro h
    unfold restart_game
    rw [h]
  · intro g hg
    refine ⟨{ g with board := startPosition, move_history_uci := [] },
      ?_, rfl, rfl, rfl, rfl, ?_, ?_⟩
    · unfold restart_game
      rw [hg]
    · unfold restart_game
      rw [hg]
      exact storeGet_storeSet_self st gid _
    · intro gid' hne
      unfold restart_game
      rw [hg]
      exact storeGet_storeSet_other st _ hne

/-- C6: applying a move to one game leaves every other game of the store —
its position and its move history — unchanged. -/
theorem store_isolation (st : Store) (gid1 gid2 uci : String) (h : gid1 ≠ gid2) :
    get_game (submit_move st gid1 uci).2 gid2 = get_game st gid2 := by
  unfold get_game submit_move
  cases hg : storeGet st gid1 with
  | none => rfl
  | some g => exact storeGet_storeSet_other st _ (Ne.symm h)

/-- Witness for C6: in a store holding the fresh games "a" and "b", playing
e2e4 in game "a" leaves game "b" exactly as it was. -/
theorem store_isolation_witness :
    get_game (submit_move twoGameStore "a" "e2e4").2 "b" = get_game twoGameStore "b" :=
  store_isolation twoGameStore "a" "b" "e2e4" (by decide)

/-- Counterexample to C7: `create_game` performs a plain dict assignment with
no collision check, so when the generated token equals a live identifier the
stored game is replaced — here the store already holds `staleGame` under
"dup", and creating a game whose generated identifier is "dup" destroys it. -/
theorem create_game_collision_counterexample :
    get_game dupStore "dup" = some staleGame ∧
    get_game (create_game dupStore "dup" 7).2 "dup" ≠ some staleGame := by
  refine ⟨rfl, ?_⟩
  decide

/-- C7 (amended): whenever the generated identifier is not currently live,
`create_game` stores the new game under it and no currently stored game is
replaced or lost; the code relies on the 12-byte random token to make the
colliding case negligible rather than checking for it. -/
theorem create_game_fresh_id_frame (st : Store) (gid : String) (now_ms : Int)
    (h : storeGet st gid = none) :
    get_game (create_game st gid now_ms).2 gid =
      some ⟨gid, now_ms, startPosition, []⟩ ∧
    ∀ gid' g', storeGet st gid' = some g' →
      get_game (create_game st gid now_ms).2 gid' = some g' := by
  constructor
  · exact storeGet_storeSet_self st gid _
  · intro gid' g' hg'
    have hne : gid' ≠ gid := by
      rintro rfl
      rw [h] at hg'
      cases hg'
    unfold get_game create_game
    simp only
    rw [storeGet_storeSet_other st _ hne]
    exact hg'

/-- Witness for the amended C7: creating "x" in the store that holds "dup"
stores the new game and leaves "dup" intact. -/
theorem create_game_fresh_id_frame_witness :
    get_game (create_game dupStore "x" 9).2 "x" =
      some ⟨"x", 9, startPosition, []⟩ ∧
    get_game (create_game dupStore "x" 9).2 "dup" = some staleGame :=
  ⟨(create_game_fresh_id_frame dupStore "x" 9 rfl).1,
   (create_game_fresh_id_frame dupStore "x" 9 rfl).2 "dup" staleGame rfl⟩

/-- C10: every store operation — create, get, restart, and move application
whether it succeeds or fails — preserves the invariant that replaying a
game's move history in order from the standard starting position reproduces
exactly its current board; a successful move grows the history by one entry,
a failed one leaves it unchanged, and a restarted game's history is empty. -/
theorem history_replay_invariant (st : Store) (gid uci : String) (now_ms : Int)
    (h : StoreInv st) :
    StoreInv (create_game st gid now_ms).2 ∧
    StoreInv (restart_game st gid).2 ∧
    StoreInv (submit_move st gid uci).2 ∧
    (∀ g, get_game st gid = some g → replay g.move_history_uci = some g.board) ∧
    (∀ g, (try_apply_move g uci).2.move_history_uci.length =
      (if (try_apply_move g uci).1.1 = true then g.move_history_uci.length + 1
       else g.move_history_uci.length)) ∧
    (∀ g', (restart_game st gid).1 = some g' →
      g'.move_history_uci.length = 0) := by
  refine ⟨?_, ?_, ?_, ?_, ?_, ?_⟩
  · exact storeInv_storeSet h rfl
  · unfold restart_game
    cases hg : storeGet st gid with
    | none => exact h
    | some g => exact storeInv_storeSet h rfl
  · unfold submit_move
    cases hg : storeGet st gid with
    | none => exact h
    | some g => exact storeInv_storeSet h (historyInv_try_apply_move (h gid g hg))
  · intro g hg
    exact h gid g hg
  · intro g
    unfold try_apply_move
    cases hp : parse_move_text uci with
    | none => simp
    | some m =>
      by_cases hleg : m ∈ legalMoves g.board <;> simp [hleg]
  · intro g' hr
    unfold restart_game at hr
    cases hg : storeGet st gid with
    | none =>
      rw [hg] at hr
      cases hr
    | some g0 =>
      rw [hg] at hr
      obtain rfl : ({ g0 with board := startPosition, move_history_uci := [] } :
          GameState) = g' := by
        simpa using hr
      rfl

/-- Witness for C10: the empty store satisfies the invariant vacuously, and
creating a game preserves it. -/
theorem history_replay_invariant_witness : StoreInv ((create_game [] "a" 0).2) :=
  (history_replay_invariant [] "a" "e2e4" 0 (fun _ _ hh => Option.noConfusion hh)).1

end ChessSpec
